import Mathlib

/-!
Verification of the memory-sync bridge (src/src/memory-sync/marley_claude_bridge.py).

Strings are modelled as Lean `String`s; where the Python code works character
by character (splitting on newlines, regex scanning), the embedding works on
the underlying `List Char` (`String.data`).  Python floats only ever hold
small dyadic rationals here (counts, halves and their quotients), so numeric
fields are modelled as `ℚ`.

The two `re.findall` calls use the fixed patterns `\[\[([^\]]+)\]\]` and
`\[([^\]]+)\]\([^\)]+\)`.  Neither pattern ever backtracks usefully (a greedy
run of non-`]` characters can only be followed by a literal `]`, and
shortening the run makes that literal fail), so `findall` is exactly a
left-to-right scan: at each position try the pattern (greedy character runs,
at least one character each); on success emit the capture and resume after
the match, on failure resume one character later.  The scanners below
implement that scan; they take a fuel argument (any fuel at least the length
of the input completes the scan, and each step consumes at least one
character) so that they are structurally recursive and kernel-reducible.
-/

/-- Python `content.split('\n')` (line 48 of the source): splitting on an
explicit separator always yields at least one piece; the empty string yields
`[[]]`, a single empty line. -/
def splitLines : List Char → List (List Char)
  | [] => [[]]
  | c :: cs =>
      match splitLines cs with
      | [] => [[]]
      | l :: ls => if c = '\n' then [] :: l :: ls else (c :: l) :: ls

/-- Python `l.startswith('#')` on a line: its first character is `#`
(`False` on the empty line). -/
def startsWithHash (l : List Char) : Bool :=
  l.head? == some '#'

/-- Line 51 of the source: `len([l for l in lines if l.startswith('#')])`. -/
def heading_count (lines : List (List Char)) : ℕ :=
  (lines.filter (fun l => startsWithHash l)).length

/-- Line 52 of the source: `len([l for l in lines if '[[' in l or '](' in l])`. -/
def link_count (lines : List (List Char)) : ℕ :=
  (lines.filter (fun l => decide ("[[".data <:+: l ∨ "](".data <:+: l))).length

/-- Line 53 of the source:
`len([l for l in lines if '#' in l and not l.startswith('#')])`. -/
def tag_count (lines : List (List Char)) : ℕ :=
  (lines.filter (fun l => l.contains '#' && !(startsWithHash l))).length

/-- `re.findall(r'\[\[([^\]]+)\]\]', line)` (line 62 of the source) as the
left-to-right scan described in the header: after `[[`, a nonempty greedy run
of non-`]` characters must be followed by `]]`; on failure the scan resumes
one character later. -/
def wikiFindallAux (fuel : ℕ) (l : List Char) : List (List Char) :=
  match fuel, l with
  | 0, _ => []
  | _, [] => []
  | fuel + 1, '[' :: '[' :: rest =>
      let cap := rest.takeWhile (· != ']')
      match rest.dropWhile (· != ']') with
      | ']' :: ']' :: rest2 =>
          if cap.isEmpty then wikiFindallAux fuel ('[' :: rest)
          else cap :: wikiFindallAux fuel rest2
      | _ => wikiFindallAux fuel ('[' :: rest)
  | fuel + 1, _ :: rest => wikiFindallAux fuel rest

/-- The wiki-link captures of one line. -/
def wikiFindall (l : List Char) : List (List Char) :=
  wikiFindallAux l.length l

/-- `re.findall(r'\[([^\]]+)\]\([^\)]+\)', line)` (line 66 of the source):
after `[`, a nonempty greedy run of non-`]` characters, then `](`, then a
nonempty greedy run of non-`)` characters, then `)`; the capture is the first
run.  On failure the scan resumes one character later. -/
def linkFindallAux (fuel : ℕ) (l : List Char) : List (List Char) :=
  match fuel, l with
  | 0, _ => []
  | _, [] => []
  | fuel + 1, '[' :: rest =>
      let cap := rest.takeWhile (· != ']')
      match rest.dropWhile (· != ']') with
      | ']' :: '(' :: rest2 =>
          let url := rest2.takeWhile (· != ')')
          match rest2.dropWhile (· != ')') with
          | ')' :: rest3 =>
              if cap.isEmpty || url.isEmpty then linkFindallAux fuel rest
              else cap :: linkFindallAux fuel rest3
          | _ => linkFindallAux fuel rest
      | _ => linkFindallAux fuel rest
  | fuel + 1, _ :: rest => linkFindallAux fuel rest

/-- The inline-link captures of one line. -/
def linkFindall (l : List Char) : List (List Char) :=
  linkFindallAux l.length l

/-- The dictionary returned by `analyze_spectral_pattern` (lines 69-74). -/
structure StructuralAnalysis where
  spectral_frequency : ℚ
  resonance_threads : List String
  structural_depth : ℕ
  connection_density : ℚ
deriving Repr, DecidableEq

/-- `SpectralScrollWalker.analyze_spectral_pattern` (lines 46-74 of the
source).  `resonance_threads` collects, line by line, first the wiki-link
captures and then the inline-link captures, and finally deduplicates them
(Python's `list(set(...))`; its order is unspecified, the embedding keeps the
first occurrence, and every claim about it is stated order-insensitively).
`len(lines)` is never zero (`split` always yields a piece), so the division
on line 55 never raises; `connection_density` carries the source's explicit
emptiness guard. -/
def analyze_spectral_pattern (content : String) : StructuralAnalysis :=
  let lines := splitLines content.data
  { spectral_frequency :=
      ((heading_count lines : ℚ) * 2 + (link_count lines : ℚ)
          + (tag_count lines : ℚ) * (1 / 2)) / (lines.length : ℚ)
    resonance_threads :=
      ((lines.flatMap (fun line => wikiFindall line ++ linkFindall line)).map
          (fun cap => String.mk cap)).dedup
    structural_depth := heading_count lines
    connection_density :=
      if lines = [] then 0 else (link_count lines : ℚ) / (lines.length : ℚ) }

/-- The `MemoryNode` dataclass (lines 27-37 of the source).  `timestamp` is an
opaque instant, modelled as `ℕ`. -/
structure MemoryNode where
  id : String
  content : String
  markdown_format : String
  spectral_frequency : ℚ
  resonance_threads : List String
  timestamp : ℕ
  source : String
  harmonization_status : String
deriving Repr, DecidableEq

/-- The node built for one input node inside `align_memory_nodes`
(lines 81-93 of the source): the analysis of `node.content` replaces
`spectral_frequency` and `resonance_threads`, `harmonization_status` becomes
`"aligned"`, every other field is copied. -/
def aligned_node (node : MemoryNode) : MemoryNode :=
  let spectral_data := analyze_spectral_pattern node.content
  { id := node.id
    content := node.content
    markdown_format := node.markdown_format
    spectral_frequency := spectral_data.spectral_frequency
    resonance_threads := spectral_data.resonance_threads
    timestamp := node.timestamp
    source := node.source
    harmonization_status := "aligned" }

/-- Insertion step of a stable descending sort by `spectral_frequency`:
the new element goes before the first element whose frequency is not greater. -/
def insertByFreq (x : MemoryNode) : List MemoryNode → List MemoryNode
  | [] => [x]
  | y :: ys =>
      if y.spectral_frequency ≤ x.spectral_frequency then x :: y :: ys
      else y :: insertByFreq x ys

/-- Python `sorted(aligned_nodes, key=lambda n: n.spectral_frequency,
reverse=True)` (line 97 of the source).  Python's sort is stable and
`reverse=True` keeps equal keys in input order, and any two stable descending
sorts agree on every input, so this insertion sort is extensionally the
Python call. -/
def sortByFreqDesc : List MemoryNode → List MemoryNode
  | [] => []
  | x :: xs => insertByFreq x (sortByFreqDesc xs)

/-- `SpectralScrollWalker.align_memory_nodes` (lines 76-97 of the source). -/
def align_memory_nodes (nodes : List MemoryNode) : List MemoryNode :=
  sortByFreqDesc (nodes.map aligned_node)

/-- One record fetched from Airtable (`record['id']`, `record['fields']`);
the fields dictionary is modelled as an association list. -/
structure AirtableRecord where
  id : String
  fields : List (String × String)
deriving Repr, DecidableEq

/-- The node-construction loop of `sync_memory_bidirectional`
(lines 175-188 of the source): one `MemoryNode` per record whose fields hold
a `Content` entry, with `Format` defaulting to `"unknown"`, frequency `0`,
no threads, `source = "marley"` and `harmonization_status = "pending"`;
records without `Content` are skipped.  `now` is the construction instant
(`datetime.now`). -/
def sync_marley_nodes (now : ℕ) (records : List AirtableRecord) : List MemoryNode :=
  records.filterMap (fun record =>
    match record.fields.lookup "Content" with
    | some content =>
        some
          { id := record.id
            content := content
            markdown_format := (record.fields.lookup "Format").getD "unknown"
            spectral_frequency := 0
            resonance_threads := []
            timestamp := now
            source := "marley"
            harmonization_status := "pending" }
    | none => none)

/-- The two dictionary shapes `harmonize_markdown_content` can return
(lines 250-256 and 260-263 of the source). -/
inductive HarmonizationResult where
  | success (original_content harmonized_content : String) (target_format : String)
      (spectral_analysis : StructuralAnalysis) (harmonization_timestamp : ℕ)
  | failure (error : String) (fallback_content : String)
deriving Repr, DecidableEq

/-- `MarleyClaudeBridge.harmonize_markdown_content` (lines 217-263 of the
source).  The call to the external text-generation collaborator is the only
effectful step inside the `try` block; it is modelled as the `claude_reply`
argument: `Except.error e` models a raised exception with message `e`,
`Except.ok text` a reply whose first content block carries `text`.  The
`except` handler turns any failure into the `failure` payload carrying the
original content; the function is total, so no failure escapes it. -/
def harmonize_markdown_content (content : String) (target_format : String)
    (now : ℕ) (claude_reply : Except String String) : HarmonizationResult :=
  match claude_reply with
  | Except.error e => HarmonizationResult.failure e content
  | Except.ok harmonized_content =>
      HarmonizationResult.success content harmonized_content target_format
        (analyze_spectral_pattern harmonized_content) now

/-- Claim C1's own reading of the tag count: lines holding a `#` at some
position other than 0, regardless of their first character (the source's
line 53 additionally requires the line not to start with `#`). -/
def claimed_tag_count (content : String) : ℕ :=
  ((splitLines content.data).filter
      (fun l => decide (∃ i : Fin l.length, (i : ℕ) ≠ 0 ∧ l.get i = '#'))).length

/-- The spectral frequency as claim C1 states it: the code's heading and link
counts, but claim C1's tag count. -/
def claimed_spectral_frequency (content : String) : ℚ :=
  let lines := splitLines content.data
  ((heading_count lines : ℚ) * 2 + (link_count lines : ℚ)
      + (claimed_tag_count content : ℚ) * (1 / 2)) / (lines.length : ℚ)

/-- The heading count in the spec's vocabulary: lines whose first character
is `#`. -/
def spec_heading_count (content : String) : ℕ :=
  ((splitLines content.data).filter (fun l => decide (l.head? = some '#'))).length

/-- The link count in the spec's vocabulary: lines containing the substring
`[[` or the substring `](`. -/
def spec_link_count (content : String) : ℕ :=
  ((splitLines content.data).filter
      (fun l => decide ("[[".data <:+: l ∨ "](".data <:+: l))).length

/-- The tag count as amended claim C1 states it: lines holding a `#` at some
position other than 0 and whose first character is not `#`. -/
def spec_tag_count (content : String) : ℕ :=
  ((splitLines content.data).filter
      (fun l => decide ((∃ i : Fin l.length, (i : ℕ) ≠ 0 ∧ l.get i = '#')
          ∧ ¬l.head? = some '#'))).length

/-- The worked example of spec §8. -/
def example_content : String :=
  "# Title\nSee [[Concept]] and [label](url)\n#tag here"

/-! ### Basic substring lemmas -/

theorem sub_of_pre {l₁ l₂ : List Char} (h : l₁ <+: l₂) : l₁ <:+: l₂ :=
  List.IsPrefix.isInfix h

theorem sub_of_suf {l₁ l₂ : List Char} (h : l₁ <:+ l₂) : l₁ <:+: l₂ :=
  List.IsSuffix.isInfix h

theorem sub_cons {l₁ l₂ : List Char} {a : Char} (h : l₁ <:+: l₂) : l₁ <:+: a :: l₂ :=
  List.infix_cons h

theorem sub_trans {l₁ l₂ l₃ : List Char} (h₁ : l₁ <:+: l₂) (h₂ : l₂ <:+: l₃) :
    l₁ <:+: l₃ :=
  List.IsInfix.trans h₁ h₂

/-! ### Shape of `splitLines` -/

/-- `split` always returns at least one piece; the first piece is a prefix of
the input and every further piece is a contiguous substring of it. -/
theorem splitLines_shape (cs : List Char) :
    ∃ hd tl, splitLines cs = hd :: tl ∧ hd <+: cs ∧ ∀ l ∈ tl, l <:+: cs := by
  induction cs with
  | nil => exact ⟨[], [], rfl, List.nil_prefix, by simp⟩
  | cons c cs ih =>
      obtain ⟨hd, tl, heq, hpre, htl⟩ := ih
      by_cases hc : c = '\n'
      · refine ⟨[], hd :: tl, ?_, List.nil_prefix, ?_⟩
        · rw [splitLines, heq]
          simp [hc]
        · intro l hl
          rcases List.mem_cons.mp hl with rfl | hl
          · exact sub_cons (sub_of_pre hpre)
          · exact sub_cons (htl l hl)
      · refine ⟨c :: hd, tl, ?_, ?_, ?_⟩
        · rw [splitLines, heq]
          simp [hc]
        · exact List.cons_prefix_cons.mpr ⟨rfl, hpre⟩
        · intro l hl
          exact sub_cons (htl l hl)

theorem mem_splitLines_sub {cs l : List Char} (h : l ∈ splitLines cs) : l <:+: cs := by
  obtain ⟨hd, tl, heq, hpre, htl⟩ := splitLines_shape cs
  rw [heq] at h
  rcases List.mem_cons.mp h with rfl | h
  · exact sub_of_pre hpre
  · exact htl l h

theorem splitLines_length_pos (cs : List Char) : 0 < (splitLines cs).length := by
  obtain ⟨hd, tl, heq, -, -⟩ := splitLines_shape cs
  rw [heq]
  exact Nat.succ_pos _

/-! ### Reduction lemmas for the findall scanners -/

theorem wfa_step_other (fuel : ℕ) (c : Char) (rest : List Char)
    (h : ∀ r : List Char, c = '[' → rest = '[' :: r → False) :
    wikiFindallAux (fuel + 1) (c :: rest) = wikiFindallAux fuel rest := by
  rw [wikiFindallAux.eq_def]
  split
  · omega
  · rename_i heq htriv
    exact absurd heq (by simp)
  · rename_i fuel2 rest2 heq1 heq2
    injection heq2 with hc hrest
    exact (h rest2 hc hrest).elim
  · rename_i fuel2 c2 rest2 hcond heq1 heq2
    injection heq1 with hf
    injection heq2 with hc hrest
    subst hf
    subst hrest
    rfl

theorem wfa_step_bracket (fuel : ℕ) (rest r2 : List Char)
    (hdrop : rest.dropWhile (· != ']') = ']' :: ']' :: r2) :
    wikiFindallAux (fuel + 1) ('[' :: '[' :: rest)
      = if (rest.takeWhile (· != ']')).isEmpty then wikiFindallAux fuel ('[' :: rest)
        else rest.takeWhile (· != ']') :: wikiFindallAux fuel r2 := by
  rw [wikiFindallAux, hdrop]
  rfl

theorem wfa_step_bracket_fail (fuel : ℕ) (rest : List Char)
    (h : ∀ r2 : List Char, rest.dropWhile (· != ']') = ']' :: ']' :: r2 → False) :
    wikiFindallAux (fuel + 1) ('[' :: '[' :: rest) = wikiFindallAux fuel ('[' :: rest) := by
  rw [wikiFindallAux]
  split
  · rename_i r2 hdrop
    exact (h r2 hdrop).elim
  · rfl

/-! ### Soundness of the findall scanners -/

/-- Every wiki-link capture occurs in the line enclosed in `[[` and `]]`. -/
theorem wikiFindallAux_sound (fuel : ℕ) (l : List Char) :
    ∀ t ∈ wikiFindallAux fuel l, ('[' :: '[' :: (t ++ [']', ']'])) <:+: l := by
  induction fuel, l using wikiFindallAux.induct with
  | case1 l =>
      intro t ht
      simp [wikiFindallAux] at ht
  | case2 fuel h =>
      intro t ht
      simp [wikiFindallAux] at ht
  | case3 fuel rest cap rest2 hdrop hcap ih =>
      intro t ht
      have hcap2 : (rest.takeWhile (· != ']')).isEmpty = true := hcap
      rw [wfa_step_bracket fuel rest rest2 hdrop, if_pos hcap2] at ht
      exact sub_cons (ih t ht)
  | case4 fuel rest cap rest2 hdrop hcap ih =>
      intro t ht
      have hcap2 : ¬(rest.takeWhile (· != ']')).isEmpty = true := hcap
      rw [wfa_step_bracket fuel rest rest2 hdrop, if_neg hcap2] at ht
      have hsplit : rest = rest.takeWhile (· != ']') ++ ']' :: ']' :: rest2 := by
        conv_lhs => rw [← List.takeWhile_append_dropWhile (p := (· != ']')) (l := rest)]
        rw [hdrop]
      rcases List.mem_cons.mp ht with rfl | ht
      · refine sub_of_pre ⟨rest2, ?_⟩
        conv_rhs => rw [hsplit]
        simp
      · refine sub_trans (ih t ht)
          (sub_of_suf ⟨'[' :: '[' :: rest.takeWhile (· != ']') ++ [']', ']'], ?_⟩)
        conv_rhs => rw [hsplit]
        simp
  | case5 fuel rest hfail ih =>
      intro t ht
      rw [wfa_step_bracket_fail fuel rest hfail] at ht
      exact sub_cons (ih t ht)
  | case6 fuel c rest hne ih =>
      intro t ht
      rw [wfa_step_other fuel c rest hne] at ht
      exact sub_cons (ih t ht)

theorem wikiFindall_sound (l : List Char) :
    ∀ t ∈ wikiFindall l, ('[' :: '[' :: (t ++ [']', ']'])) <:+: l :=
  wikiFindallAux_sound l.length l

theorem lfa_step_other (fuel : ℕ) (c : Char) (rest : List Char)
    (h : c = '[' → False) :
    linkFindallAux (fuel + 1) (c :: rest) = linkFindallAux fuel rest := by
  rw [linkFindallAux.eq_def]
  split
  · omega
  · rename_i heq htriv
    exact absurd heq (by simp)
  · rename_i fuel2 rest2 heq1 heq2
    injection heq2 with hc hrest
    exact (h hc).elim
  · rename_i fuel2 c2 rest2 hcond heq1 heq2
    injection heq1 with hf
    injection heq2 with hc hrest
    subst hf
    subst hrest
    rfl

theorem lfa_step_b1 (fuel : ℕ) (rest r2 : List Char)
    (hdrop : rest.dropWhile (· != ']') = ']' :: '(' :: r2) :
    linkFindallAux (fuel + 1) ('[' :: rest)
      = match r2.dropWhile (· != ')') with
        | ')' :: rest3 =>
            if (rest.takeWhile (· != ']')).isEmpty || (r2.takeWhile (· != ')')).isEmpty
            then linkFindallAux fuel rest
            else rest.takeWhile (· != ']') :: linkFindallAux fuel rest3
        | _ => linkFindallAux fuel rest := by
  rw [linkFindallAux, hdrop]
  rfl

theorem lfa_step_full (fuel : ℕ) (rest r2 r3 : List Char)
    (hdrop1 : rest.dropWhile (· != ']') = ']' :: '(' :: r2)
    (hdrop2 : r2.dropWhile (· != ')') = ')' :: r3) :
    linkFindallAux (fuel + 1) ('[' :: rest)
      = if (rest.takeWhile (· != ']')).isEmpty || (r2.takeWhile (· != ')')).isEmpty
        then linkFindallAux fuel rest
        else rest.takeWhile (· != ']') :: linkFindallAux fuel r3 := by
  rw [lfa_step_b1 fuel rest r2 hdrop1, hdrop2]
  rfl

theorem lfa_step_fail2 (fuel : ℕ) (rest r2 : List Char)
    (hdrop1 : rest.dropWhile (· != ']') = ']' :: '(' :: r2)
    (h : ∀ r3 : List Char, r2.dropWhile (· != ')') = ')' :: r3 → False) :
    linkFindallAux (fuel + 1) ('[' :: rest) = linkFindallAux fuel rest := by
  rw [lfa_step_b1 fuel rest r2 hdrop1]
  split
  · rename_i r3 hd2
    exact (h r3 hd2).elim
  · rfl

theorem lfa_step_fail1 (fuel : ℕ) (rest : List Char)
    (h : ∀ r2 : List Char, rest.dropWhile (· != ']') = ']' :: '(' :: r2 → False) :
    linkFindallAux (fuel + 1) ('[' :: rest) = linkFindallAux fuel rest := by
  rw [linkFindallAux]
  split
  · rename_i r2 hdrop
    exact (h r2 hdrop).elim
  · rfl

/-- Every inline-link capture occurs in the line as the label of a bracketed
link `[label](...)`. -/
theorem linkFindallAux_sound (fuel : ℕ) (l : List Char) :
    ∀ t ∈ linkFindallAux fuel l,
      ∃ mid : List Char, ('[' :: (t ++ ']' :: '(' :: (mid ++ [')']))) <:+: l := by
  induction fuel, l using linkFindallAux.induct with
  | case1 l =>
      intro t ht
      simp [linkFindallAux] at ht
  | case2 fuel h =>
      intro t ht
      simp [linkFindallAux] at ht
  | case3 fuel rest cap rest2 hdrop1 url rest3 hdrop2 hif ih =>
      intro t ht
      have hif2 : ((rest.takeWhile (· != ']')).isEmpty
          || (rest2.takeWhile (· != ')')).isEmpty) = true := hif
      rw [lfa_step_full fuel rest rest2 rest3 hdrop1 hdrop2, if_pos hif2] at ht
      obtain ⟨mid, hmid⟩ := ih t ht
      exact ⟨mid, sub_cons hmid⟩
  | case4 fuel rest cap rest2 hdrop1 url rest3 hdrop2 hif ih =>
      intro t ht
      have hif2 : ¬((rest.takeWhile (· != ']')).isEmpty
          || (rest2.takeWhile (· != ')')).isEmpty) = true := hif
      rw [lfa_step_full fuel rest rest2 rest3 hdrop1 hdrop2, if_neg hif2] at ht
      have hsplit1 : rest = rest.takeWhile (· != ']') ++ ']' :: '(' :: rest2 := by
        conv_lhs => rw [← List.takeWhile_append_dropWhile (p := (· != ']')) (l := rest)]
        rw [hdrop1]
      have hsplit2 : rest2 = rest2.takeWhile (· != ')') ++ ')' :: rest3 := by
        conv_lhs => rw [← List.takeWhile_append_dropWhile (p := (· != ')')) (l := rest2)]
        rw [hdrop2]
      rcases List.mem_cons.mp ht with rfl | ht
      · refine ⟨rest2.takeWhile (· != ')'), sub_of_pre ⟨rest3, ?_⟩⟩
        conv_rhs => rw [hsplit1, hsplit2]
        simp
      · obtain ⟨mid, hmid⟩ := ih t ht
        refine ⟨mid, sub_trans hmid (sub_of_suf
          ⟨'[' :: rest.takeWhile (· != ']') ++ ']' :: '(' :: rest2.takeWhile (· != ')')
            ++ [')'], ?_⟩)⟩
        conv_rhs => rw [hsplit1, hsplit2]
        simp
  | case5 fuel rest rest2 hdrop1 hfail ih =>
      intro t ht
      rw [lfa_step_fail2 fuel rest rest2 hdrop1 hfail] at ht
      obtain ⟨mid, hmid⟩ := ih t ht
      exact ⟨mid, sub_cons hmid⟩
  | case6 fuel rest hfail ih =>
      intro t ht
      rw [lfa_step_fail1 fuel rest hfail] at ht
      obtain ⟨mid, hmid⟩ := ih t ht
      exact ⟨mid, sub_cons hmid⟩
  | case7 fuel c rest hne ih =>
      intro t ht
      rw [lfa_step_other fuel c rest hne] at ht
      obtain ⟨mid, hmid⟩ := ih t ht
      exact ⟨mid, sub_cons hmid⟩

theorem linkFindall_sound (l : List Char) :
    ∀ t ∈ linkFindall l,
      ∃ mid : List Char, ('[' :: (t ++ ']' :: '(' :: (mid ++ [')']))) <:+: l :=
  linkFindallAux_sound l.length l

/-! ### The stable descending sort -/

theorem mem_insertByFreq {z x : MemoryNode} {l : List MemoryNode} :
    z ∈ insertByFreq x l ↔ z ∈ x :: l := by
  induction l with
  | nil => simp [insertByFreq]
  | cons y ys ih =>
      by_cases h : y.spectral_frequency ≤ x.spectral_frequency
      · simp [insertByFreq, h]
      · simp only [insertByFreq, if_neg h, List.mem_cons, ih]
        tauto

theorem perm_insertByFreq (x : MemoryNode) (l : List MemoryNode) :
    (insertByFreq x l).Perm (x :: l) := by
  induction l with
  | nil => exact List.Perm.refl _
  | cons y ys ih =>
      by_cases h : y.spectral_frequency ≤ x.spectral_frequency
      · simp [insertByFreq, h]
      · simp only [insertByFreq, if_neg h]
        exact (ih.cons y).trans (List.Perm.swap x y ys)

theorem perm_sortByFreqDesc (l : List MemoryNode) : (sortByFreqDesc l).Perm l := by
  induction l with
  | nil => exact List.Perm.refl _
  | cons x xs ih => exact (perm_insertByFreq x (sortByFreqDesc xs)).trans (ih.cons x)

theorem sorted_insertByFreq {x : MemoryNode} {l : List MemoryNode}
    (h : List.Sorted (fun a b => b.spectral_frequency ≤ a.spectral_frequency) l) :
    List.Sorted (fun a b => b.spectral_frequency ≤ a.spectral_frequency)
      (insertByFreq x l) := by
  induction l with
  | nil => simp [insertByFreq]
  | cons y ys ih =>
      rw [List.sorted_cons] at h
      obtain ⟨hy, hys⟩ := h
      by_cases hc : y.spectral_frequency ≤ x.spectral_frequency
      · simp only [insertByFreq, if_pos hc]
        rw [List.sorted_cons]
        refine ⟨?_, List.sorted_cons.mpr ⟨hy, hys⟩⟩
        intro b hb
        rcases List.mem_cons.mp hb with rfl | hb
        · exact hc
        · exact le_trans (hy b hb) hc
      · simp only [insertByFreq, if_neg hc]
        rw [List.sorted_cons]
        refine ⟨?_, ih hys⟩
        intro b hb
        rcases List.mem_cons.mp (mem_insertByFreq.mp hb) with rfl | hb
        · exact (not_le.mp hc).le
        · exact hy b hb

theorem sorted_sortByFreqDesc (l : List MemoryNode) :
    List.Sorted (fun a b => b.spectral_frequency ≤ a.spectral_frequency)
      (sortByFreqDesc l) := by
  induction l with
  | nil => simp [sortByFreqDesc]
  | cons x xs ih => exact sorted_insertByFreq ih

/-- Inserting and then keeping the elements of one frequency is the same as
putting the inserted element (if it has that frequency) in front: every
element the insertion walks past has a strictly greater frequency. -/
theorem filter_insertByFreq (q : ℚ) (x : MemoryNode) (l : List MemoryNode) :
    (insertByFreq x l).filter (fun n => decide (n.spectral_frequency = q))
      = (x :: l).filter (fun n => decide (n.spectral_frequency = q)) := by
  induction l with
  | nil => rfl
  | cons y ys ih =>
      by_cases hc : y.spectral_frequency ≤ x.spectral_frequency
      · simp only [insertByFreq, if_pos hc]
      · simp only [insertByFreq, if_neg hc]
        by_cases hx : x.spectral_frequency = q
        · have hy : ¬y.spectral_frequency = q := by
            intro hyq
            exact hc (by rw [hyq, hx])
          simp [List.filter_cons, hx, hy, ih]
        · simp [List.filter_cons, hx, ih]

theorem filter_sortByFreqDesc (q : ℚ) (l : List MemoryNode) :
    (sortByFreqDesc l).filter (fun n => decide (n.spectral_frequency = q))
      = l.filter (fun n => decide (n.spectral_frequency = q)) := by
  induction l with
  | nil => rfl
  | cons x xs ih =>
      show (insertByFreq x (sortByFreqDesc xs)).filter _ = _
      rw [filter_insertByFreq]
      simp [List.filter_cons, ih]

/-! ### The three counts in the spec's vocabulary -/

theorem heading_count_eq (content : String) :
    heading_count (splitLines content.data) = spec_heading_count content := by
  unfold heading_count spec_heading_count
  congr 1
  apply List.filter_congr
  intro l _
  rw [Bool.eq_iff_iff, decide_eq_true_iff]
  simp [startsWithHash]

theorem link_count_eq (content : String) :
    link_count (splitLines content.data) = spec_link_count content := rfl

theorem contains_hash_iff (l : List Char) : l.contains '#' = true ↔ '#' ∈ l := by
  show l.elem '#' = true ↔ '#' ∈ l
  exact List.elem_iff

/-- The per-line condition of line 53 of the source, read positionally:
a `#` somewhere past position 0 and no `#` at position 0. -/
theorem tag_pred_iff (l : List Char) :
    (l.contains '#' && !(startsWithHash l)) = true
      ↔ ((∃ i : Fin l.length, (i : ℕ) ≠ 0 ∧ l.get i = '#') ∧ ¬l.head? = some '#') := by
  cases l with
  | nil => decide
  | cons c cs =>
      rw [Bool.and_eq_true, contains_hash_iff]
      constructor
      · rintro ⟨hmem, hsw⟩
        have hc : ¬c = '#' := by
          intro h
          rw [startsWithHash, h] at hsw
          simp at hsw
        refine ⟨?_, by intro h; exact hc (by injection h)⟩
        rcases List.mem_cons.mp hmem with h | h
        · exact absurd h.symm hc
        · obtain ⟨j, hj⟩ := List.mem_iff_get.mp h
          exact ⟨⟨j.1 + 1, Nat.succ_lt_succ j.isLt⟩, by simp, hj⟩
      · rintro ⟨⟨i, hi0, hig⟩, hhead⟩
        have hc : ¬c = '#' := by
          intro h
          exact hhead (by rw [h]; rfl)
        constructor
        · rcases i with ⟨iv, hlt⟩
          cases iv with
          | zero => exact absurd rfl hi0
          | succ k =>
              refine List.mem_cons.mpr (Or.inr ?_)
              have : cs.get ⟨k, Nat.succ_lt_succ_iff.mp hlt⟩ = '#' := hig
              rw [← this]
              exact List.get_mem cs k _
        · rw [startsWithHash]
          simpa using hc

theorem tag_count_eq (content : String) :
    tag_count (splitLines content.data) = spec_tag_count content := by
  unfold tag_count spec_tag_count
  congr 1
  apply List.filter_congr
  intro l _
  rw [Bool.eq_iff_iff, decide_eq_true_iff]
  exact tag_pred_iff l

/-! ### Helper lemmas about `aligned_node` and the sync loop -/

theorem map_id_aligned (nodes : List MemoryNode) :
    (nodes.map aligned_node).map MemoryNode.id = nodes.map MemoryNode.id := by
  rw [List.map_map]
  rfl

theorem sync_ids_eq (now : ℕ) (records : List AirtableRecord) :
    (sync_marley_nodes now records).map MemoryNode.id
      = (records.filter (fun r => (r.fields.lookup "Content").isSome)).map
          AirtableRecord.id := by
  induction records with
  | nil => rfl
  | cons r rs ih =>
      simp only [sync_marley_nodes] at ih ⊢
      cases hc : r.fields.lookup "Content" with
      | none => simp [List.filterMap_cons, List.filter_cons, hc, ih]
      | some c => simp [List.filterMap_cons, List.filter_cons, hc, ih]

theorem sync_status (now : ℕ) (records : List AirtableRecord) :
    ∀ n ∈ sync_marley_nodes now records,
      n.harmonization_status = "pending" ∧ n.source = "marley" := by
  intro n hn
  simp only [sync_marley_nodes] at hn
  obtain ⟨r, hr, hfr⟩ := List.mem_filterMap.mp hn
  cases hc : r.fields.lookup "Content" with
  | none =>
      rw [hc] at hfr
      simp at hfr
  | some c =>
      rw [hc] at hfr
      simp only [Option.some.injEq] at hfr
      subst hfr
      exact ⟨rfl, rfl⟩

/-! ### The claims -/

/-- C1 counterexample: on the single-line content `"# a #b"` the code returns
spectral frequency `2` (the line is a heading, and its mid-line `#` is *not*
counted as a tag because the line starts with `#`), while claim C1's formula,
whose `T` counts any line with a `#` past position 0, yields `5/2`. -/
theorem claimed_spectral_frequency_cex :
    (analyze_spectral_pattern "# a #b").spectral_frequency
      ≠ claimed_spectral_frequency "# a #b" := by
  have h1 : heading_count (splitLines "# a #b".data) = 1 := by decide
  have h2 : link_count (splitLines "# a #b".data) = 0 := by decide
  have h3 : tag_count (splitLines "# a #b".data) = 0 := by decide
  have h4 : claimed_tag_count "# a #b" = 1 := by decide
  have h5 : (splitLines "# a #b".data).length = 1 := by decide
  simp only [analyze_spectral_pattern, claimed_spectral_frequency, h1, h2, h3, h4, h5]
  norm_num

/-- C1 (amended): for every content string, `analyze` returns
`spectralFrequency = (H*2 + L + T*0.5) / N` where `N` is the number of
newline-separated lines, `H` the number of lines whose first character is
`#`, `L` the number of lines containing `[[` or `](`, and `T` the number of
lines holding a `#` at a position other than 0 *and not starting with `#`*
(heading and tag conditions are mutually exclusive, not independent).
`N` is always at least 1, so the guard "at least one line" is vacuous. -/
theorem spectral_frequency_formula (content : String) :
    (analyze_spectral_pattern content).spectral_frequency
      = ((spec_heading_count content : ℚ) * 2 + (spec_link_count content : ℚ)
          + (spec_tag_count content : ℚ) * (1 / 2))
        / ((splitLines content.data).length : ℚ) := by
  simp only [analyze_spectral_pattern]
  rw [heading_count_eq, link_count_eq, tag_count_eq]

/-- C2 counterexample: on the worked example the code's structural depth is
`2`, not the claimed `1` (the third line `"#tag here"` starts with `#`, so it
is a heading line), and the spectral frequency is `5/3`, not the claimed
`1.5`. -/
theorem example_content_claim_cex :
    (analyze_spectral_pattern example_content).structural_depth ≠ 1 ∧
    (analyze_spectral_pattern example_content).spectral_frequency ≠ 3 / 2 := by
  constructor
  · decide
  · have h1 : heading_count (splitLines example_content.data) = 2 := by decide
    have h2 : link_count (splitLines example_content.data) = 1 := by decide
    have h3 : tag_count (splitLines example_content.data) = 0 := by decide
    have h5 : (splitLines example_content.data).length = 3 := by decide
    simp only [analyze_spectral_pattern, h1, h2, h3, h5]
    norm_num

/-- C2 (amended): the example content splits into 3 lines with
`headingCount = 2` (both `"# Title"` and `"#tag here"` start with `#`),
`linkCount = 1` (the second line contains both `[[` and `](` but is one
line), `tagCount = 0` (no line has a mid-line `#` without starting with `#`),
so `structuralDepth = 2`, `connectionDensity = 1/3`,
`spectralFrequency = (2*2 + 1 + 0)/3 = 5/3`; `resonanceThreads` is exactly
the set containing `"Concept"` and `"label"`. -/
theorem example_content_analysis :
    (splitLines example_content.data).length = 3 ∧
    (analyze_spectral_pattern example_content).structural_depth = 2 ∧
    (analyze_spectral_pattern example_content).connection_density = 1 / 3 ∧
    (analyze_spectral_pattern example_content).spectral_frequency = 5 / 3 ∧
    (analyze_spectral_pattern example_content).resonance_threads.Perm
      ["Concept", "label"] := by
  refine ⟨by decide, by decide, ?_, ?_, by decide⟩
  · have h2 : link_count (splitLines example_content.data) = 1 := by decide
    have h5 : (splitLines example_content.data).length = 3 := by decide
    have hne : ¬splitLines example_content.data = [] := by decide
    simp only [analyze_spectral_pattern, h2, h5, if_neg hne]
    norm_num
  · have h1 : heading_count (splitLines example_content.data) = 2 := by decide
    have h2 : link_count (splitLines example_content.data) = 1 := by decide
    have h3 : tag_count (splitLines example_content.data) = 0 := by decide
    have h5 : (splitLines example_content.data).length = 3 := by decide
    simp only [analyze_spectral_pattern, h1, h2, h3, h5]
    norm_num

/-- C3 counterexample: splitting the empty string yields one line, not zero,
so no division by zero happens and `analyze` returns the defined frequency
`0`. -/
theorem analyze_empty_cex :
    (splitLines "".data).length ≠ 0 ∧
    (analyze_spectral_pattern "").spectral_frequency = 0 := by
  refine ⟨by decide, ?_⟩
  have h1 : heading_count (splitLines "".data) = 0 := by decide
  have h2 : link_count (splitLines "".data) = 0 := by decide
  have h3 : tag_count (splitLines "".data) = 0 := by decide
  have h5 : (splitLines "".data).length = 1 := by decide
  simp only [analyze_spectral_pattern, h1, h2, h3, h5]
  norm_num

/-- C3 (amended): `analyze` applied to the empty string splits it into one
line (the single empty line, so `lineCount = 1`) and returns the defined
result `spectralFrequency = 0`, no resonance threads, `structuralDepth = 0`
and `connectionDensity = 0`; the division on line 55 never sees a zero line
count. -/
theorem analyze_empty_defined :
    splitLines "".data = [[]] ∧
    (analyze_spectral_pattern "").spectral_frequency = 0 ∧
    (analyze_spectral_pattern "").resonance_threads = [] ∧
    (analyze_spectral_pattern "").structural_depth = 0 ∧
    (analyze_spectral_pattern "").connection_density = 0 := by
  refine ⟨by decide, ?_, by decide, by decide, ?_⟩
  · have h1 : heading_count (splitLines "".data) = 0 := by decide
    have h2 : link_count (splitLines "".data) = 0 := by decide
    have h3 : tag_count (splitLines "".data) = 0 := by decide
    have h5 : (splitLines "".data).length = 1 := by decide
    simp only [analyze_spectral_pattern, h1, h2, h3, h5]
    norm_num
  · have h2 : link_count (splitLines "".data) = 0 := by decide
    have h5 : (splitLines "".data).length = 1 := by decide
    have hne : ¬splitLines "".data = [] := by decide
    simp only [analyze_spectral_pattern, h2, h5, if_neg hne]
    norm_num

/-- C4: every resonance thread returned by `analyze` occurs literally in the
content, either enclosed in wiki-link brackets `[[...]]` or as the label part
of an inline link `[label](...)`, and the returned collection has no
duplicates.  (Every content string has at least one line, so the claim's
guard is vacuous and omitted.) -/
theorem resonance_threads_sound (content : String) :
    (∀ t ∈ (analyze_spectral_pattern content).resonance_threads,
        ("[[".data ++ t.data ++ "]]".data) <:+: content.data ∨
          ∃ mid : List Char,
            ("[".data ++ t.data ++ "](".data ++ mid ++ ")".data) <:+: content.data) ∧
    (analyze_spectral_pattern content).resonance_threads.Nodup := by
  constructor
  · intro t ht
    simp only [analyze_spectral_pattern] at ht
    rw [List.mem_dedup] at ht
    obtain ⟨cap, hcap, rfl⟩ := List.mem_map.mp ht
    obtain ⟨line, hline, hcapline⟩ := List.mem_flatMap.mp hcap
    have hlinesub : line <:+: content.data := mem_splitLines_sub hline
    rcases List.mem_append.mp hcapline with hw | hk
    · left
      have h1 := wikiFindall_sound line cap hw
      have h2 := sub_trans h1 hlinesub
      simpa [List.append_assoc] using h2
    · right
      obtain ⟨mid, hmid⟩ := linkFindall_sound line cap hk
      refine ⟨mid, ?_⟩
      have h2 := sub_trans hmid hlinesub
      simpa [List.append_assoc] using h2
  · simp only [analyze_spectral_pattern]
    exact List.nodup_dedup _

/-- C5: the output of `align_memory_nodes` is sorted non-increasingly by
`spectral_frequency`: every adjacent pair has the earlier node's frequency at
least the later node's. -/
theorem align_sorted_desc (nodes : List MemoryNode) :
    List.Chain' (fun a b => b.spectral_frequency ≤ a.spectral_frequency)
      (align_memory_nodes nodes) :=
  List.Pairwise.chain' (sorted_sortByFreqDesc (nodes.map aligned_node))

/-- C6: `align_memory_nodes` returns as many nodes as it was given, and the
multiset of ids is unchanged: no node is dropped, added, or renamed. -/
theorem align_preserves_ids (nodes : List MemoryNode) :
    (align_memory_nodes nodes).length = nodes.length ∧
    (((align_memory_nodes nodes).map MemoryNode.id : List String) : Multiset String)
      = ((nodes.map MemoryNode.id : List String) : Multiset String) := by
  constructor
  · rw [align_memory_nodes]
    rw [(perm_sortByFreqDesc (nodes.map aligned_node)).length_eq]
    exact List.length_map nodes aligned_node
  · apply Multiset.coe_eq_coe.mpr
    have hp := (perm_sortByFreqDesc (nodes.map aligned_node)).map MemoryNode.id
    rw [map_id_aligned] at hp
    exact hp

/-- C7: each output node of `align_memory_nodes` is the `aligned_node` image
of one input node: `id`, `content`, `markdown_format`, `timestamp` and
`source` are copied, only `spectral_frequency` and `resonance_threads` are
replaced by the analysis of that node's content, and `harmonization_status`
is forced to `"aligned"` on every output node whatever its input status. -/
theorem align_frame (nodes : List MemoryNode) :
    (∀ node : MemoryNode,
        (aligned_node node).id = node.id ∧
        (aligned_node node).content = node.content ∧
        (aligned_node node).markdown_format = node.markdown_format ∧
        (aligned_node node).timestamp = node.timestamp ∧
        (aligned_node node).source = node.source ∧
        (aligned_node node).spectral_frequency
          = (analyze_spectral_pattern node.content).spectral_frequency ∧
        (aligned_node node).resonance_threads
          = (analyze_spectral_pattern node.content).resonance_threads ∧
        (aligned_node node).harmonization_status = "aligned") ∧
    (align_memory_nodes nodes).Perm (nodes.map aligned_node) ∧
    ∀ m ∈ align_memory_nodes nodes, m.harmonization_status = "aligned" := by
  refine ⟨fun node => ⟨rfl, rfl, rfl, rfl, rfl, rfl, rfl, rfl⟩,
    perm_sortByFreqDesc _, ?_⟩
  intro m hm
  have hm2 : m ∈ nodes.map aligned_node := (perm_sortByFreqDesc _).mem_iff.mp hm
  obtain ⟨n, hn, rfl⟩ := List.mem_map.mp hm2
  rfl

/-- C8: when the text-generation collaborator fails, the exception is caught
and `harmonize_markdown_content` returns the error payload whose fallback
content is the original input unchanged; the function is total, so nothing
propagates to its caller. -/
theorem harmonize_failure_payload (content target_format : String) (now : ℕ)
    (e : String) :
    harmonize_markdown_content content target_format now (Except.error e)
      = HarmonizationResult.failure e content := rfl

/-- C9: the sync loop builds exactly one node per fetched record whose fields
contain a `Content` entry (in order, with the record's id), skips the others,
and every built node starts with `harmonization_status = "pending"` and
`source = "marley"`. -/
theorem sync_nodes_spec (now : ℕ) (records : List AirtableRecord) :
    (sync_marley_nodes now records).length
      = (records.filter (fun r => (r.fields.lookup "Content").isSome)).length ∧
    (sync_marley_nodes now records).map MemoryNode.id
      = (records.filter (fun r => (r.fields.lookup "Content").isSome)).map
          AirtableRecord.id ∧
    ∀ n ∈ sync_marley_nodes now records,
      n.harmonization_status = "pending" ∧ n.source = "marley" := by
  refine ⟨?_, sync_ids_eq now records, sync_status now records⟩
  have h := congrArg List.length (sync_ids_eq now records)
  simpa using h

/-- C10: the sort inside `align_memory_nodes` is stable: restricted to any
one frequency value, the output lists the aligned nodes in exactly their
input order. -/
theorem align_stable (nodes : List MemoryNode) (q : ℚ) :
    (align_memory_nodes nodes).filter (fun n => decide (n.spectral_frequency = q))
      = (nodes.map aligned_node).filter (fun n => decide (n.spectral_frequency = q)) :=
  filter_sortByFreqDesc q (nodes.map aligned_node)
